import Mathlib

/-!
Verification of the img-sort frontend core (`src/lib/api/index.ts`,
`src/features/analysis/store.tsx`, `src/lib/api/types.ts`) against its
natural-language specification.

The TypeScript code is shallowly embedded: JS numbers are modelled as
rationals (ℚ), `Number(x.toFixed(4))` as round-half-up at 4 decimal places,
and the mock job state machine as explicit state passing.  Parts of the
system that live only in the Tauri backend (per-item pipeline, keep/drop
softmax) are modelled from the spec and marked as such in their doc comments.
-/

namespace ImgSort

/-- `CategoryKey` from `src/lib/api/types.ts`: closed enumeration of the
8 categories, in the fixed order of `CATEGORY_KEYS` (`index.ts` lines 21-30). -/
inductive CategoryKey where
  | screenshot_document
  | people
  | food_cafe
  | nature_landscape
  | city_street_travel
  | pets_animals
  | products_objects
  | other
deriving DecidableEq, Repr

/-- The fixed enumeration order `CATEGORY_KEYS` (`index.ts` lines 21-30). -/
def CATEGORY_KEYS : List CategoryKey :=
  [CategoryKey.screenshot_document, CategoryKey.people, CategoryKey.food_cafe,
   CategoryKey.nature_landscape, CategoryKey.city_street_travel,
   CategoryKey.pets_animals, CategoryKey.products_objects, CategoryKey.other]

/-- Index of each category in the `CATEGORY_KEYS` enumeration order. -/
def pos : CategoryKey → Nat
  | CategoryKey.screenshot_document => 0
  | CategoryKey.people => 1
  | CategoryKey.food_cafe => 2
  | CategoryKey.nature_landscape => 3
  | CategoryKey.city_street_travel => 4
  | CategoryKey.pets_animals => 5
  | CategoryKey.products_objects => 6
  | CategoryKey.other => 7

theorem pos_eq_findIdx (k : CategoryKey) :
    pos k = CATEGORY_KEYS.findIdx (fun x => decide (x = k)) := by
  cases k <;> rfl

theorem mem_CATEGORY_KEYS (k : CategoryKey) : k ∈ CATEGORY_KEYS := by
  cases k <;> simp [CATEGORY_KEYS]

/-- A `ScoreVector` (`types.ts` line 11): one rational score per category. -/
def ScoreVector : Type := CategoryKey → ℚ

/-- JS `Number(x.toFixed(4))`, modelled as round half up at 4 decimals. -/
def round4 (x : ℚ) : ℚ := (⌊x * 10000 + 1 / 2⌋ : ℚ) / 10000

/-- `normalizeScores` (`index.ts` lines 76-83): divide the raw scores by
their sum (`|| 1` makes a zero sum behave as 1) and round each quotient to
4 decimal places; entry `idx` of the value list is paired with
`CATEGORY_KEYS[idx]`.  An index beyond the list yields 0 here (the JS code
is only ever called with exactly 8 raw scores). -/
def normalizeScores (raw : List ℚ) : ScoreVector :=
  fun k => round4 (raw.getD (pos k) 0 / (if raw.sum = 0 then 1 else raw.sum))

/-- Sum of the 8 entries of a score vector, in enumeration order. -/
def scoreSum (s : ScoreVector) : ℚ := (CATEGORY_KEYS.map s).sum

/-- `Object.entries(scores)`: the key/value pairs in insertion order, which
is the `CATEGORY_KEYS` order used to build every score object. -/
def entries (s : ScoreVector) : List (CategoryKey × ℚ) :=
  CATEGORY_KEYS.map (fun k => (k, s k))

/-- One step of the `reduce` in `deriveCategory` (`index.ts` lines 85-93).
`none` plays the role of the `-Infinity` initial value: any finite score
compares strictly greater than it. -/
def stepTop (top : CategoryKey × Option ℚ) (kv : CategoryKey × ℚ) :
    CategoryKey × Option ℚ :=
  match top with
  | (_, none) => (kv.1, some kv.2)
  | (k0, some t) => if t < kv.2 then (kv.1, some kv.2) else (k0, some t)

/-- `deriveCategory` (`index.ts` lines 85-93): reduce over the entries with
strict `>` so ties keep the earlier entry; initial accumulator is
`{ key: CATEGORY_KEYS[0], value: -Infinity }`. -/
def deriveCategory (s : ScoreVector) : CategoryKey :=
  ((entries s).foldl stepTop (CategoryKey.screenshot_document, none)).1

/-- Reference recursion for the reduce once the accumulator holds a real
key/score: keep the accumulator unless a strictly larger score appears. -/
def firstMaxK (s : ScoreVector) : CategoryKey → List CategoryKey → CategoryKey
  | acc, [] => acc
  | acc, k :: rest => firstMaxK s (if s acc < s k then k else acc) rest

theorem foldl_stepTop_map (s : ScoreVector) (l : List CategoryKey)
    (a : CategoryKey) :
    List.foldl stepTop (a, some (s a)) (l.map fun k => (k, s k)) =
      (firstMaxK s a l, some (s (firstMaxK s a l))) := by
  induction l generalizing a with
  | nil => rfl
  | cons k rest ih =>
      simp only [List.map_cons, List.foldl_cons, stepTop, firstMaxK]
      by_cases h : s a < s k
      · simp only [if_pos h]
        exact ih k
      · simp only [if_neg h]
        exact ih a

theorem deriveCategory_eq_firstMaxK (s : ScoreVector) :
    deriveCategory s =
      firstMaxK s CategoryKey.screenshot_document
        [CategoryKey.people, CategoryKey.food_cafe, CategoryKey.nature_landscape,
         CategoryKey.city_street_travel, CategoryKey.pets_animals,
         CategoryKey.products_objects, CategoryKey.other] := by
  have h := foldl_stepTop_map s
      [CategoryKey.people, CategoryKey.food_cafe, CategoryKey.nature_landscape,
       CategoryKey.city_street_travel, CategoryKey.pets_animals,
       CategoryKey.products_objects, CategoryKey.other]
      CategoryKey.screenshot_document
  show (List.foldl stepTop (CategoryKey.screenshot_document, none) (entries s)).1 = _
  have e1 : entries s =
      (CategoryKey.screenshot_document, s CategoryKey.screenshot_document) ::
        ([CategoryKey.people, CategoryKey.food_cafe, CategoryKey.nature_landscape,
          CategoryKey.city_street_travel, CategoryKey.pets_animals,
          CategoryKey.products_objects, CategoryKey.other].map fun k => (k, s k)) := rfl
  have e2 : stepTop (CategoryKey.screenshot_document, none)
      (CategoryKey.screenshot_document, s CategoryKey.screenshot_document) =
      (CategoryKey.screenshot_document, some (s CategoryKey.screenshot_document)) := rfl
  rw [e1, List.foldl_cons, e2, h]

theorem firstMaxK_le (s : ScoreVector) (l : List CategoryKey) (a : CategoryKey) :
    s a ≤ s (firstMaxK s a l) := by
  induction l generalizing a with
  | nil => exact le_refl _
  | cons k rest ih =>
      simp only [firstMaxK]
      by_cases h : s a < s k
      · simp only [if_pos h]
        exact le_trans (le_of_lt h) (ih k)
      · simp only [if_neg h]
        exact ih a

theorem firstMaxK_mem_le (s : ScoreVector) (l : List CategoryKey)
    (a : CategoryKey) : ∀ k ∈ l, s k ≤ s (firstMaxK s a l) := by
  induction l generalizing a with
  | nil => intro k hk; cases hk
  | cons k1 rest ih =>
      intro k hk
      rcases List.mem_cons.mp hk with rfl | hk
      · simp only [firstMaxK]
        by_cases h : s a < s k
        · simp only [if_pos h]
          exact firstMaxK_le s rest k
        · simp only [if_neg h]
          exact le_trans (le_of_not_lt h) (firstMaxK_le s rest a)
      · simp only [firstMaxK]
        by_cases h : s a < s k1
        · simp only [if_pos h]
          exact ih k1 k hk
        · simp only [if_neg h]
          exact ih a k hk

/-- The reduce keeps the first entry attaining the maximum: the result is
either the accumulator, or an element of the list that is strictly greater
than every position-earlier candidate. -/
theorem firstMaxK_first (s : ScoreVector) (l : List CategoryKey)
    (a : CategoryKey) (hpw : (a :: l).Pairwise (fun x y => pos x < pos y)) :
    firstMaxK s a l = a ∨
      (firstMaxK s a l ∈ l ∧ s a < s (firstMaxK s a l) ∧
        ∀ k ∈ a :: l, pos k < pos (firstMaxK s a l) → s k < s (firstMaxK s a l)) := by
  induction l generalizing a with
  | nil => exact Or.inl rfl
  | cons k1 rest ih =>
      have hpw1 : (k1 :: rest).Pairwise (fun x y => pos x < pos y) :=
        (List.pairwise_cons.mp hpw).2
      have hak1 : pos a < pos k1 :=
        (List.pairwise_cons.mp hpw).1 k1 (List.mem_cons_self _ _)
      have harest : ∀ k ∈ rest, pos a < pos k := fun k hk =>
        (List.pairwise_cons.mp hpw).1 k (List.mem_cons_of_mem _ hk)
      have hk1rest : ∀ k ∈ rest, pos k1 < pos k := fun k hk =>
        (List.pairwise_cons.mp hpw1).1 k hk
      have hpwrest : rest.Pairwise (fun x y => pos x < pos y) :=
        (List.pairwise_cons.mp hpw1).2
      simp only [firstMaxK]
      by_cases h : s a < s k1
      · simp only [if_pos h]
        rcases ih k1 (List.pairwise_cons.mpr ⟨hk1rest, hpwrest⟩) with heq | ⟨hmem, hlt, hfirst⟩
        · refine Or.inr ⟨?_, ?_, ?_⟩
          · rw [heq]; exact List.mem_cons_self _ _
          · rw [heq]; exact h
          · intro k hk hklt
            rw [heq] at hklt ⊢
            rcases List.mem_cons.mp hk with rfl | hk
            · exact h
            · rcases List.mem_cons.mp hk with rfl | hk
              · exact absurd hklt (lt_irrefl _)
              · exact absurd hklt (not_lt.mpr (le_of_lt (hk1rest k hk)))
        · refine Or.inr ⟨List.mem_cons_of_mem _ hmem, lt_trans h hlt, ?_⟩
          intro k hk hklt
          rcases List.mem_cons.mp hk with rfl | hk
          · exact lt_trans h hlt
          · exact hfirst k hk hklt
      · simp only [if_neg h]
        rcases ih a (List.pairwise_cons.mpr ⟨harest, hpwrest⟩) with heq | ⟨hmem, hlt, hfirst⟩
        · exact Or.inl heq
        · refine Or.inr ⟨List.mem_cons_of_mem _ hmem, hlt, ?_⟩
          intro k hk hklt
          rcases List.mem_cons.mp hk with rfl | hk
          · exact hfirst k (List.mem_cons_self _ _) hklt
          · rcases List.mem_cons.mp hk with rfl | hk
            · exact lt_of_le_of_lt (le_of_not_lt h) hlt
            · exact hfirst k (List.mem_cons_of_mem _ hk) hklt

/-- C2: for every ScoreVector, `deriveCategory` returns the arg-max of the
8 scores, and when several categories share the maximal score the one
earliest in the `CATEGORY_KEYS` enumeration order is returned. -/
theorem deriveCategory_is_first_argmax (s : ScoreVector) :
    (∀ k, s k ≤ s (deriveCategory s)) ∧
    (∀ k, s k = s (deriveCategory s) → pos (deriveCategory s) ≤ pos k) := by
  rw [deriveCategory_eq_firstMaxK]
  set rest : List CategoryKey :=
    [CategoryKey.people, CategoryKey.food_cafe, CategoryKey.nature_landscape,
     CategoryKey.city_street_travel, CategoryKey.pets_animals,
     CategoryKey.products_objects, CategoryKey.other] with hrest
  have hpw : (CategoryKey.screenshot_document :: rest).Pairwise
      (fun x y => pos x < pos y) := by rw [hrest]; decide
  have hmem : ∀ k : CategoryKey, k ∈ CategoryKey.screenshot_document :: rest := by
    intro k; cases k <;> simp [hrest]
  constructor
  · intro k
    rcases List.mem_cons.mp (hmem k) with rfl | hk
    · exact firstMaxK_le s rest _
    · exact firstMaxK_mem_le s rest _ k hk
  · intro k hk
    rcases firstMaxK_first s rest CategoryKey.screenshot_document hpw with
      heq | ⟨_, _, hfirst⟩
    · rw [heq]
      exact Nat.zero_le _
    · by_contra hlt
      have := hfirst k (hmem k) (lt_of_not_le hlt)
      exact absurd hk (ne_of_lt this)

/-- Concrete tie: `people` and `pets_animals` share the maximal score 3. -/
def tieScores : ScoreVector := fun k =>
  match k with
  | CategoryKey.people => 3
  | CategoryKey.pets_animals => 3
  | _ => 1

/-- Witness for C2 at a concrete score vector with a genuine tie. -/
theorem deriveCategory_is_first_argmax_witness :
    tieScores CategoryKey.pets_animals = tieScores (deriveCategory tieScores) ∧
    pos (deriveCategory tieScores) ≤ pos CategoryKey.pets_animals ∧
    deriveCategory tieScores = CategoryKey.people :=
  ⟨by decide,
   (deriveCategory_is_first_argmax tieScores).2 CategoryKey.pets_animals (by decide),
   by decide⟩

theorem round4_nonneg {x : ℚ} (h : 0 ≤ x) : 0 ≤ round4 x := by
  unfold round4
  have h1 : (0 : ℤ) ≤ ⌊x * 10000 + 1 / 2⌋ := by
    apply Int.floor_nonneg.mpr
    linarith
  positivity

theorem round4_le_one {x : ℚ} (h : x ≤ 1) : round4 x ≤ 1 := by
  unfold round4
  have h1 : ⌊x * 10000 + 1 / 2⌋ ≤ (10000 : ℤ) := by
    have : x * 10000 + 1 / 2 ≤ 10000 + 1 / 2 := by linarith
    have h2 : ⌊x * 10000 + 1 / 2⌋ ≤ ⌊(10000 : ℚ) + 1 / 2⌋ := Int.floor_le_floor this
    have h3 : ⌊(10000 : ℚ) + 1 / 2⌋ = (10000 : ℤ) := by norm_num [Int.floor_eq_iff]
    omega
  have h4 : (⌊x * 10000 + 1 / 2⌋ : ℚ) ≤ (10000 : ℚ) := by exact_mod_cast h1
  linarith

theorem round4_err (x : ℚ) : |round4 x - x| ≤ 1 / 20000 := by
  unfold round4
  have h1 : (⌊x * 10000 + 1 / 2⌋ : ℚ) ≤ x * 10000 + 1 / 2 := Int.floor_le _
  have h2 : x * 10000 + 1 / 2 - 1 < (⌊x * 10000 + 1 / 2⌋ : ℚ) :=
    Int.sub_one_lt_floor _
  rw [abs_le]
  exact ⟨by nlinarith, by nlinarith⟩

theorem sum_round4_err (l : List ℚ) :
    |(l.map round4).sum - l.sum| ≤ (l.length : ℚ) * (1 / 20000) := by
  induction l with
  | nil => simp
  | cons x xs ih =>
      have hx := round4_err x
      have h1 : round4 x + (xs.map round4).sum - (x + xs.sum) =
          (round4 x - x) + ((xs.map round4).sum - xs.sum) := by ring
      calc |((x :: xs).map round4).sum - (x :: xs).sum|
          = |(round4 x - x) + ((xs.map round4).sum - xs.sum)| := by
            simp only [List.map_cons, List.sum_cons]; rw [h1]
        _ ≤ |round4 x - x| + |(xs.map round4).sum - xs.sum| := abs_add _ _
        _ ≤ 1 / 20000 + (xs.length : ℚ) * (1 / 20000) := by
            exact add_le_add hx ih
        _ = ((x :: xs).length : ℚ) * (1 / 20000) := by
            simp only [List.length_cons]
            push_cast
            ring

/-- C1 (amended): for 8 non-negative raw scores with positive sum, every
normalized score lies in [0,1], and the 8 rounded scores sum to 1 within
4e-4 (8 half-ulps of the 4-decimal rounding), not within 1e-4. -/
theorem normalizeScores_bounds (raw : List ℚ) (hlen : raw.length = 8)
    (hnn : ∀ x ∈ raw, 0 ≤ x) (hpos : 0 < raw.sum) :
    (∀ k, 0 ≤ normalizeScores raw k ∧ normalizeScores raw k ≤ 1) ∧
    |scoreSum (normalizeScores raw) - 1| ≤ 4 / 10000 := by
  match raw, hlen with
  | [a, b, c, d, e, f, g, h], _ =>
    have ha : 0 ≤ a := hnn a (by simp)
    have hb : 0 ≤ b := hnn b (by simp)
    have hc : 0 ≤ c := hnn c (by simp)
    have hd : 0 ≤ d := hnn d (by simp)
    have he : 0 ≤ e := hnn e (by simp)
    have hf : 0 ≤ f := hnn f (by simp)
    have hg : 0 ≤ g := hnn g (by simp)
    have hh : 0 ≤ h := hnn h (by simp)
    have hsum : [a, b, c, d, e, f, g, h].sum = a + b + c + d + e + f + g + h := by
      simp only [List.sum_cons, List.sum_nil]
      ring
    have hT : 0 < a + b + c + d + e + f + g + h := by
      rw [hsum] at hpos; exact hpos
    have hTne : a + b + c + d + e + f + g + h ≠ 0 := ne_of_gt hT
    have hval : ∀ k, normalizeScores [a, b, c, d, e, f, g, h] k =
        round4 ([a, b, c, d, e, f, g, h].getD (pos k) 0 /
          (a + b + c + d + e + f + g + h)) := by
      intro k
      unfold normalizeScores
      rw [hsum, if_neg hTne]
    have hdiv : ∀ x : ℚ, 0 ≤ x → x ≤ a + b + c + d + e + f + g + h →
        0 ≤ x / (a + b + c + d + e + f + g + h) ∧
          x / (a + b + c + d + e + f + g + h) ≤ 1 := by
      intro x hx hxle
      exact ⟨div_nonneg hx (le_of_lt hT), (div_le_one hT).mpr hxle⟩
    constructor
    · intro k
      rw [hval k]
      have hx : 0 ≤ [a, b, c, d, e, f, g, h].getD (pos k) 0 ∧
          [a, b, c, d, e, f, g, h].getD (pos k) 0 ≤
            a + b + c + d + e + f + g + h := by
        cases k
        · exact ⟨ha, show a ≤ a + b + c + d + e + f + g + h by linarith⟩
        · exact ⟨hb, show b ≤ a + b + c + d + e + f + g + h by linarith⟩
        · exact ⟨hc, show c ≤ a + b + c + d + e + f + g + h by linarith⟩
        · exact ⟨hd, show d ≤ a + b + c + d + e + f + g + h by linarith⟩
        · exact ⟨he, show e ≤ a + b + c + d + e + f + g + h by linarith⟩
        · exact ⟨hf, show f ≤ a + b + c + d + e + f + g + h by linarith⟩
        · exact ⟨hg, show g ≤ a + b + c + d + e + f + g + h by linarith⟩
        · exact ⟨hh, show h ≤ a + b + c + d + e + f + g + h by linarith⟩
      obtain ⟨h1, h2⟩ := hdiv _ hx.1 hx.2
      exact ⟨round4_nonneg h1, round4_le_one h2⟩
    · have hmap : CATEGORY_KEYS.map (normalizeScores [a, b, c, d, e, f, g, h]) =
          [a / (a + b + c + d + e + f + g + h),
           b / (a + b + c + d + e + f + g + h),
           c / (a + b + c + d + e + f + g + h),
           d / (a + b + c + d + e + f + g + h),
           e / (a + b + c + d + e + f + g + h),
           f / (a + b + c + d + e + f + g + h),
           g / (a + b + c + d + e + f + g + h),
           h / (a + b + c + d + e + f + g + h)].map round4 := by
        simp only [CATEGORY_KEYS, List.map_cons, List.map_nil,
          hval CategoryKey.screenshot_document, hval CategoryKey.people,
          hval CategoryKey.food_cafe, hval CategoryKey.nature_landscape,
          hval CategoryKey.city_street_travel, hval CategoryKey.pets_animals,
          hval CategoryKey.products_objects, hval CategoryKey.other]
        rfl
      have hinner : [a / (a + b + c + d + e + f + g + h),
           b / (a + b + c + d + e + f + g + h),
           c / (a + b + c + d + e + f + g + h),
           d / (a + b + c + d + e + f + g + h),
           e / (a + b + c + d + e + f + g + h),
           f / (a + b + c + d + e + f + g + h),
           g / (a + b + c + d + e + f + g + h),
           h / (a + b + c + d + e + f + g + h)].sum = 1 := by
        simp only [List.sum_cons, List.sum_nil, add_zero]
        field_simp
        ring
      unfold scoreSum
      rw [hmap]
      have := sum_round4_err
        [a / (a + b + c + d + e + f + g + h),
         b / (a + b + c + d + e + f + g + h),
         c / (a + b + c + d + e + f + g + h),
         d / (a + b + c + d + e + f + g + h),
         e / (a + b + c + d + e + f + g + h),
         f / (a + b + c + d + e + f + g + h),
         g / (a + b + c + d + e + f + g + h),
         h / (a + b + c + d + e + f + g + h)]
      rw [hinner] at this
      simp only [List.length_cons, List.length_nil] at this
      calc |([a / (a + b + c + d + e + f + g + h),
           b / (a + b + c + d + e + f + g + h),
           c / (a + b + c + d + e + f + g + h),
           d / (a + b + c + d + e + f + g + h),
           e / (a + b + c + d + e + f + g + h),
           f / (a + b + c + d + e + f + g + h),
           g / (a + b + c + d + e + f + g + h),
           h / (a + b + c + d + e + f + g + h)].map round4).sum - 1|
          ≤ ((0 : Nat) + 1 + 1 + 1 + 1 + 1 + 1 + 1 + 1 : ℚ) * (1 / 20000) := by
            convert this using 3
            norm_num
        _ ≤ 4 / 10000 := by norm_num

/-- C1 counterexample: 8 non-negative raw scores (sum 100000 > 0) whose
normalized scores sum to 0.9997, which is not within 1e-4 of 1. -/
theorem normalizeScores_sum_not_within_1e4 :
    (∀ x ∈ ([12504, 12504, 12504, 12504, 12504, 12504, 12504, 12472] : List ℚ),
        0 ≤ x) ∧
    (0 : ℚ) < ([12504, 12504, 12504, 12504, 12504, 12504, 12504, 12472] : List ℚ).sum ∧
    scoreSum (normalizeScores
        [12504, 12504, 12504, 12504, 12504, 12504, 12504, 12472]) = 9997 / 10000 ∧
    ¬ |scoreSum (normalizeScores
        [12504, 12504, 12504, 12504, 12504, 12504, 12504, 12472]) - 1| ≤
      1 / 10000 := by
  have hsum : ([12504, 12504, 12504, 12504, 12504, 12504, 12504, 12472] :
      List ℚ).sum = 100000 := by norm_num
  have e1 : round4 ((12504 : ℚ) / 100000) = 1250 / 10000 := by
    unfold round4
    norm_num [Int.floor_eq_iff]
  have e2 : round4 ((12472 : ℚ) / 100000) = 1247 / 10000 := by
    unfold round4
    norm_num [Int.floor_eq_iff]
  have hnorm : ∀ k, normalizeScores
      [12504, 12504, 12504, 12504, 12504, 12504, 12504, 12472] k =
      round4 (([12504, 12504, 12504, 12504, 12504, 12504, 12504, 12472] :
        List ℚ).getD (pos k) 0 / 100000) := by
    intro k
    unfold normalizeScores
    rw [hsum, if_neg (by norm_num)]
  have k1 : normalizeScores [12504, 12504, 12504, 12504, 12504, 12504, 12504, 12472]
      CategoryKey.screenshot_document = 1250 / 10000 := by rw [hnorm]; exact e1
  have k2 : normalizeScores [12504, 12504, 12504, 12504, 12504, 12504, 12504, 12472]
      CategoryKey.people = 1250 / 10000 := by rw [hnorm]; exact e1
  have k3 : normalizeScores [12504, 12504, 12504, 12504, 12504, 12504, 12504, 12472]
      CategoryKey.food_cafe = 1250 / 10000 := by rw [hnorm]; exact e1
  have k4 : normalizeScores [12504, 12504, 12504, 12504, 12504, 12504, 12504, 12472]
      CategoryKey.nature_landscape = 1250 / 10000 := by rw [hnorm]; exact e1
  have k5 : normalizeScores [12504, 12504, 12504, 12504, 12504, 12504, 12504, 12472]
      CategoryKey.city_street_travel = 1250 / 10000 := by rw [hnorm]; exact e1
  have k6 : normalizeScores [12504, 12504, 12504, 12504, 12504, 12504, 12504, 12472]
      CategoryKey.pets_animals = 1250 / 10000 := by rw [hnorm]; exact e1
  have k7 : normalizeScores [12504, 12504, 12504, 12504, 12504, 12504, 12504, 12472]
      CategoryKey.products_objects = 1250 / 10000 := by rw [hnorm]; exact e1
  have k8 : normalizeScores [12504, 12504, 12504, 12504, 12504, 12504, 12504, 12472]
      CategoryKey.other = 1247 / 10000 := by rw [hnorm]; exact e2
  have hs : scoreSum (normalizeScores
      [12504, 12504, 12504, 12504, 12504, 12504, 12504, 12472]) = 9997 / 10000 := by
    unfold scoreSum CATEGORY_KEYS
    simp only [List.map_cons, List.map_nil, List.sum_cons, List.sum_nil,
      add_zero, k1, k2, k3, k4, k5, k6, k7, k8]
    norm_num
  refine ⟨by norm_num, by rw [hsum]; norm_num, hs, ?_⟩
  rw [hs]
  rw [show (9997 : ℚ) / 10000 - 1 = -(3 / 10000) by norm_num, abs_neg,
    abs_of_nonneg (by norm_num : (0 : ℚ) ≤ 3 / 10000)]
  norm_num

/-- Witness for the amended C1 at a concrete batch of equal raw scores. -/
theorem normalizeScores_bounds_witness :
    (∀ k, 0 ≤ normalizeScores [1, 1, 1, 1, 1, 1, 1, 1] k ∧
        normalizeScores [1, 1, 1, 1, 1, 1, 1, 1] k ≤ 1) ∧
    |scoreSum (normalizeScores [1, 1, 1, 1, 1, 1, 1, 1]) - 1| ≤ 4 / 10000 :=
  normalizeScores_bounds [1, 1, 1, 1, 1, 1, 1, 1] (by norm_num)
    (by
      intro x hx
      have hx1 : x = 1 := by simpa using hx
      rw [hx1]
      norm_num)
    (by norm_num)

/-- Job status values of `Progress.status` (`types.ts` line 101). -/
inductive JobStatus where
  | idle
  | running
  | completed
  | canceled
  | error
deriving DecidableEq, Repr

/-- `Progress` (`types.ts` lines 99-106).  Job ids are modelled as naturals:
the mock uses `crypto.randomUUID()` strings, of which only freshness
matters. -/
structure Progress where
  jobId : Nat
  status : JobStatus
  currentFile : Option String
  processed : Nat
  total : Nat
  errors : Nat
deriving DecidableEq, Repr

/-- The part of a mock `PhotoRow` the job loop reads: its file name and
whether `generateMockRows` marked its export status as "error"
(`index.ts` lines 95-116). -/
structure MockRow where
  fileName : String
  exportError : Bool
deriving DecidableEq, Repr

/-- `slice.filter((r) => r.exportStatus === "error").length`
(`index.ts` line 258). -/
def errorsIn (rows : List MockRow) : Nat :=
  (rows.filter (fun r => r.exportError)).length

/-- One firing of the mock progress timer (`index.ts` lines 249-269): do
nothing once the job is no longer running; otherwise clamp the advance at
the total, add the errors found in the newly covered slice of rows, report
the last file of the slice, and complete the job when the end is reached.
`step` stands for the random `Math.floor(5 + Math.random() * 12)`. -/
def tick (rows : List MockRow) (step : Nat) (p : Progress) : Progress :=
  if p.status ≠ JobStatus.running then p
  else
    let nextProcessed := min (p.processed + step) p.total
    let slice := (rows.drop p.processed).take (nextProcessed - p.processed)
    let p1 : Progress :=
      { p with
          processed := nextProcessed
          currentFile := slice.getLast?.map (fun r => r.fileName)
          errors := p.errors + errorsIn slice }
    if p.total ≤ nextProcessed then
      { p1 with status := JobStatus.completed, currentFile := none }
    else p1

/-- The progress state after a sequence of timer firings. -/
def runTicks (rows : List MockRow) (steps : List Nat) (p : Progress) : Progress :=
  steps.foldl (fun q st => tick rows st q) p

theorem errorsIn_append (l1 l2 : List MockRow) :
    errorsIn (l1 ++ l2) = errorsIn l1 + errorsIn l2 := by
  unfold errorsIn
  rw [List.filter_append, List.length_append]

theorem seg_append {α : Type} (rows : List α) (a b c : Nat) (hab : a ≤ b)
    (hbc : b ≤ c) :
    (rows.drop a).take (b - a) ++ (rows.drop b).take (c - b) =
      (rows.drop a).take (c - a) := by
  have h1 : rows.drop b = (rows.drop a).drop (b - a) := by
    rw [List.drop_drop]
    congr 1
    omega
  rw [h1, ← List.take_add]
  congr 1
  omega

theorem tick_step (rows : List MockRow) (st : Nat) (p : Progress)
    (hp : p.processed ≤ p.total) :
    p.processed ≤ (tick rows st p).processed ∧
    (tick rows st p).processed ≤ p.total ∧
    (tick rows st p).total = p.total ∧
    (tick rows st p).errors = p.errors +
      errorsIn ((rows.drop p.processed).take
        ((tick rows st p).processed - p.processed)) := by
  unfold tick
  by_cases h : p.status ≠ JobStatus.running
  · rw [if_pos h]
    refine ⟨le_refl _, hp, rfl, ?_⟩
    rw [Nat.sub_self]
    simp [errorsIn]
  · rw [if_neg h]
    by_cases h2 : p.total ≤ min (p.processed + st) p.total
    · rw [if_pos h2]
      exact ⟨le_min (Nat.le_add_right _ _) hp, min_le_right _ _, rfl, rfl⟩
    · rw [if_neg h2]
      exact ⟨le_min (Nat.le_add_right _ _) hp, min_le_right _ _, rfl, rfl⟩

/-- C4: over any sequence of timer firings of a job, the processed counter
is monotonically non-decreasing, never exceeds the (stable) total, and the
error counter accounts exactly for the error rows in the covered slice: no
update is lost. -/
theorem runTicks_progress (rows : List MockRow) (steps : List Nat)
    (p : Progress) (hp : p.processed ≤ p.total) :
    p.processed ≤ (runTicks rows steps p).processed ∧
    (runTicks rows steps p).processed ≤ p.total ∧
    (runTicks rows steps p).total = p.total ∧
    (runTicks rows steps p).errors = p.errors +
      errorsIn ((rows.drop p.processed).take
        ((runTicks rows steps p).processed - p.processed)) := by
  induction steps generalizing p with
  | nil =>
      refine ⟨le_refl _, hp, rfl, ?_⟩
      show p.errors = p.errors + errorsIn ((rows.drop p.processed).take
        (p.processed - p.processed))
      rw [Nat.sub_self]
      simp [errorsIn]
  | cons st rest ih =>
      obtain ⟨ha1, ha2, ha3, ha4⟩ := tick_step rows st p hp
      have hq2 : (tick rows st p).processed ≤ (tick rows st p).total := by
        rw [ha3]
        exact ha2
      obtain ⟨hb1, hb2, hb3, hb4⟩ := ih (tick rows st p) hq2
      have hrun : runTicks rows (st :: rest) p =
          runTicks rows rest (tick rows st p) := rfl
      rw [hrun]
      refine ⟨le_trans ha1 hb1, ?_, ?_, ?_⟩
      · rw [← ha3]
        exact hb2
      · rw [hb3, ha3]
      · rw [hb4, ha4, Nat.add_assoc]
        congr 1
        rw [← errorsIn_append, seg_append rows p.processed (tick rows st p).processed
          (runTicks rows rest (tick rows st p)).processed ha1 hb1]

/-- Three mock rows, the middle one an export error. -/
def demoRows : List MockRow :=
  [⟨"a.jpg", false⟩, ⟨"b.jpg", true⟩, ⟨"c.jpg", false⟩]

/-- A freshly started running job over `demoRows`. -/
def demoProgress : Progress :=
  { jobId := 1, status := JobStatus.running, currentFile := none,
    processed := 0, total := 3, errors := 0 }

/-- Witness for C4 on a concrete 3-row job advanced twice by 2. -/
theorem runTicks_progress_witness :
    demoProgress.processed ≤ (runTicks demoRows [2, 2] demoProgress).processed ∧
    (runTicks demoRows [2, 2] demoProgress).processed ≤ demoProgress.total ∧
    (runTicks demoRows [2, 2] demoProgress).total = demoProgress.total ∧
    (runTicks demoRows [2, 2] demoProgress).errors = demoProgress.errors +
      errorsIn ((demoRows.drop demoProgress.processed).take
        ((runTicks demoRows [2, 2] demoProgress).processed -
          demoProgress.processed)) :=
  runTicks_progress demoRows [2, 2] demoProgress (by decide)

/-- The mock module state of `index.ts` together with the store fields the
analysis actions read (`store.tsx`). -/
structure AppState where
  sourceRoot : String
  exportRoot : String
  mockJobId : Option Nat
  nextId : Nat
  rows : List MockRow
  progress : Progress
deriving DecidableEq, Repr

/-- The mock branch of `startAnalysis` (`index.ts` lines 236-272): issue a
fresh job id, install the freshly generated rows, and publish a running
progress with `total = rows.length`; it performs no input validation and no
running-job check.  `newRows` stands for the random `generateMockRows`
output. -/
def startAnalysisMock (s : AppState) (newRows : List MockRow) : Nat × AppState :=
  (s.nextId,
    { s with
        mockJobId := some s.nextId
        nextId := s.nextId + 1
        rows := newRows
        progress :=
          { jobId := s.nextId, status := JobStatus.running, currentFile := none,
            processed := 0, total := newRows.length, errors := 0 } })

/-- Outcome of the store's start action: a job id, or an error toast with
no job created. -/
inductive StartOutcome where
  | started (jobId : Nat)
  | rejected
deriving DecidableEq, Repr

/-- `startAnalysisNow` (`store.tsx` lines 344-384): reject when either root
is empty or when the optional Ollama preflight fails, otherwise call
`startAnalysis`.  `shouldCheckOllama` abbreviates
`engine = ollama ∨ (engine = clip ∧ clipFallbackToOllama)`; `ollamaOk` and
`modelSet` stand for the outcome of `testOllama` and a non-empty model
setting. -/
def startAnalysisNow (s : AppState) (shouldCheckOllama ollamaOk modelSet : Bool)
    (newRows : List MockRow) : StartOutcome × AppState :=
  if s.sourceRoot = "" ∨ s.exportRoot = "" then (StartOutcome.rejected, s)
  else if shouldCheckOllama && (!ollamaOk || !modelSet) then
    (StartOutcome.rejected, s)
  else
    let r := startAnalysisMock s newRows
    (StartOutcome.started r.1, r.2)

/-- A state with a running job and valid roots. -/
def runningState : AppState :=
  { sourceRoot := "/pics", exportRoot := "/out", mockJobId := some 0,
    nextId := 1, rows := [⟨"a.jpg", false⟩],
    progress := { jobId := 0, status := JobStatus.running, currentFile := none,
                  processed := 0, total := 1, errors := 0 } }

/-- C3 counterexample: starting while a job is running and both roots are
valid is not rejected; a fresh job is created and supersedes the running
one. -/
theorem startAnalysis_while_running_not_rejected :
    runningState.progress.status = JobStatus.running ∧
    runningState.sourceRoot ≠ "" ∧
    runningState.exportRoot ≠ "" ∧
    (startAnalysisNow runningState false true true []).1 =
      StartOutcome.started 1 ∧
    (startAnalysisNow runningState false true true []).2.progress.jobId = 1 ∧
    (startAnalysisNow runningState false true true []).2.progress.status =
      JobStatus.running := by
  decide

/-- C3 (amended): the start action fails with the state unchanged when a
root is empty or when the Ollama preflight fails, and otherwise returns a
fresh job id — even when a job is already running, in which case the new
job supersedes the old instead of the request being rejected. -/
theorem startAnalysisNow_contract (s : AppState) (sc ok ms : Bool)
    (newRows : List MockRow)
    (hfresh : ∀ j, s.mockJobId = some j → j < s.nextId) :
    ((s.sourceRoot = "" ∨ s.exportRoot = "") →
      startAnalysisNow s sc ok ms newRows = (StartOutcome.rejected, s)) ∧
    (s.sourceRoot ≠ "" → s.exportRoot ≠ "" →
      (sc && (!ok || !ms)) = true →
      startAnalysisNow s sc ok ms newRows = (StartOutcome.rejected, s)) ∧
    (s.sourceRoot ≠ "" → s.exportRoot ≠ "" →
      (sc && (!ok || !ms)) = false →
      (startAnalysisNow s sc ok ms newRows).1 = StartOutcome.started s.nextId ∧
      (∀ j, s.mockJobId = some j → s.nextId ≠ j) ∧
      (startAnalysisNow s sc ok ms newRows).2.progress.status = JobStatus.running ∧
      (startAnalysisNow s sc ok ms newRows).2.progress.jobId = s.nextId ∧
      (startAnalysisNow s sc ok ms newRows).2.progress.processed = 0 ∧
      (startAnalysisNow s sc ok ms newRows).2.progress.total = newRows.length ∧
      (startAnalysisNow s sc ok ms newRows).2.mockJobId = some s.nextId ∧
      (startAnalysisNow s sc ok ms newRows).2.nextId = s.nextId + 1) := by
  refine ⟨?_, ?_, ?_⟩
  · intro h
    unfold startAnalysisNow
    rw [if_pos h]
  · intro h1 h2 h3
    unfold startAnalysisNow
    rw [if_neg (not_or.mpr ⟨h1, h2⟩), if_pos h3]
  · intro h1 h2 h3
    unfold startAnalysisNow startAnalysisMock
    rw [if_neg (not_or.mpr ⟨h1, h2⟩), if_neg (by rw [h3]; exact Bool.false_ne_true)]
    refine ⟨rfl, ?_, rfl, rfl, rfl, rfl, rfl, rfl⟩
    intro j hj
    exact Nat.ne_of_gt (hfresh j hj)

/-- An idle state with valid roots and no job yet. -/
def idleState : AppState :=
  { sourceRoot := "/pics", exportRoot := "/out", mockJobId := none,
    nextId := 0, rows := [],
    progress := { jobId := 0, status := JobStatus.idle, currentFile := none,
                  processed := 0, total := 0, errors := 0 } }

/-- Witness for the amended C3: starting from an idle state succeeds with a
fresh job id and installs the generated rows. -/
theorem startAnalysisNow_contract_witness :
    (startAnalysisNow idleState false true true [⟨"p1.jpg", false⟩]).1 =
      StartOutcome.started 0 ∧
    (startAnalysisNow idleState false true true [⟨"p1.jpg", false⟩]).2.progress.total = 1 := by
  have h := (startAnalysisNow_contract idleState false true true
      [⟨"p1.jpg", false⟩] (fun j hj => Option.noConfusion hj)).2.2
      (by decide) (by decide) (by decide)
  exact ⟨h.1, h.2.2.2.2.2.1⟩

/-- The mock branch of `cancelAnalysis` (`index.ts` lines 276-282): when
the id matches the live mock job, publish status "canceled"; otherwise do
nothing. -/
def cancelAnalysis (s : AppState) (jobId : Nat) : AppState :=
  if s.mockJobId = some jobId then
    { s with progress := { s.progress with status := JobStatus.canceled } }
  else s

/-- C6: `cancelAnalysis` is a no-op for a non-matching job id (the whole
state, hence status, processed, total and errors, is unchanged) and is
idempotent. -/
theorem cancelAnalysis_noop_idempotent (s : AppState) (jobId : Nat) :
    (s.mockJobId ≠ some jobId → cancelAnalysis s jobId = s) ∧
    cancelAnalysis (cancelAnalysis s jobId) jobId = cancelAnalysis s jobId := by
  constructor
  · intro h
    unfold cancelAnalysis
    rw [if_neg h]
  · by_cases h : s.mockJobId = some jobId
    · simp [cancelAnalysis, h]
    · simp [cancelAnalysis, h]

/-- Witness for C6: cancelling with a wrong id changes nothing, and a
second cancel with the right id changes nothing further. -/
theorem cancelAnalysis_noop_idempotent_witness :
    cancelAnalysis runningState 7 = runningState ∧
    cancelAnalysis (cancelAnalysis runningState 0) 0 =
      cancelAnalysis runningState 0 :=
  ⟨(cancelAnalysis_noop_idempotent runningState 7).1 (by decide),
   (cancelAnalysis_noop_idempotent runningState 0).2⟩

/-- `analysisEngine` values (`types.ts` line 23). -/
inductive Engine where
  | clip
  | ollama
deriving DecidableEq, Repr

/-- The argument record of `saveSettings` (`store.tsx` lines 260-280).
Numeric inputs are rationals: they come from form fields and may be
fractional, zero or out of range. -/
structure SettingsInput where
  baseUrl : String
  model : String
  think : Bool
  stream : Bool
  resizeEnabled : Bool
  maxEdge : ℚ
  jpegQuality : ℚ
  valueEnabled : Bool
  concurrency : ℚ
  engine : Engine
  clipModelDir : String
  clipModelFile : String
  clipFallbackToOllama : Bool
  clipEpAuto : Bool
  clipEpCoreml : Bool
  clipEpCuda : Bool
  clipEpRocm : Bool
  clipEpDirectml : Bool
  clipEpOpenvino : Bool
deriving DecidableEq, Repr

/-- The persisted `Settings` record (`types.ts` lines 13-33); the clamped
numeric fields are integers after `Math.floor`. -/
structure Settings where
  ollamaBaseUrl : String
  ollamaModel : String
  ollamaThink : Bool
  ollamaStream : Bool
  analysisResizeEnabled : Bool
  analysisMaxEdge : ℤ
  analysisJpegQuality : ℤ
  analysisValueEnabled : Bool
  analysisConcurrency : ℤ
  analysisEngine : Engine
  clipModelDir : Option String
  clipModelFile : String
  clipFallbackToOllama : Bool
  clipEpAuto : Bool
  clipEpCoreml : Bool
  clipEpCuda : Bool
  clipEpRocm : Bool
  clipEpDirectml : Bool
  clipEpOpenvino : Bool
deriving DecidableEq, Repr

/-- Line 283 of `store.tsx`:
`Math.min(32, Math.max(1, Math.floor(next.concurrency || 1)))`.
JS `|| 1` maps a zero (or missing) input to 1 before flooring. -/
def clampConcurrency (c : ℚ) : ℤ :=
  min 32 (max 1 ⌊if c = 0 then (1 : ℚ) else c⌋)

/-- `saveSettings` (`store.tsx` lines 260-330): clamp `maxEdge` to
[128,4096] and `jpegQuality` to [20,95] (`|| 0` first, a no-op for
rationals), clamp `concurrency` to [1,32], force the stream flag off when
the clamped concurrency exceeds 1, and persist the resulting record. -/
def saveSettings (next : SettingsInput) : Settings :=
  { ollamaBaseUrl := next.baseUrl
    ollamaModel := next.model
    ollamaThink := next.think
    ollamaStream :=
      if 1 < clampConcurrency next.concurrency then false else next.stream
    analysisResizeEnabled := next.resizeEnabled
    analysisMaxEdge :=
      min 4096 (max 128 ⌊if next.maxEdge = 0 then (0 : ℚ) else next.maxEdge⌋)
    analysisJpegQuality :=
      min 95 (max 20 ⌊if next.jpegQuality = 0 then (0 : ℚ) else next.jpegQuality⌋)
    analysisValueEnabled := next.valueEnabled
    analysisConcurrency := clampConcurrency next.concurrency
    analysisEngine := next.engine
    clipModelDir :=
      if next.clipModelDir.trim = "" then none else some next.clipModelDir.trim
    clipModelFile :=
      if next.clipModelFile.trim = "" then "onnx/model_q4f16.onnx"
      else next.clipModelFile.trim
    clipFallbackToOllama := next.clipFallbackToOllama
    clipEpAuto := next.clipEpAuto
    clipEpCoreml := next.clipEpCoreml
    clipEpCuda := next.clipEpCuda
    clipEpRocm := next.clipEpRocm
    clipEpDirectml := next.clipEpDirectml
    clipEpOpenvino := next.clipEpOpenvino }

/-- C7: the persisted concurrency is the requested one floored and clamped
to [1,32], with a zero (or missing) request becoming 1. -/
theorem saveSettings_concurrency_clamped (next : SettingsInput) :
    1 ≤ (saveSettings next).analysisConcurrency ∧
    (saveSettings next).analysisConcurrency ≤ 32 ∧
    (next.concurrency = 0 → (saveSettings next).analysisConcurrency = 1) ∧
    (1 ≤ next.concurrency → next.concurrency ≤ 32 →
      (saveSettings next).analysisConcurrency = ⌊next.concurrency⌋) ∧
    (32 < next.concurrency → (saveSettings next).analysisConcurrency = 32) ∧
    (next.concurrency < 1 → next.concurrency ≠ 0 →
      (saveSettings next).analysisConcurrency = 1) := by
  have hval : (saveSettings next).analysisConcurrency =
      clampConcurrency next.concurrency := rfl
  refine ⟨?_, ?_, ?_, ?_, ?_, ?_⟩
  · rw [hval]
    unfold clampConcurrency
    exact le_min (by norm_num) (le_max_left _ _)
  · rw [hval]
    unfold clampConcurrency
    exact min_le_left _ _
  · intro h0
    rw [hval]
    unfold clampConcurrency
    rw [if_pos h0, Int.floor_one]
    omega
  · intro h1 h2
    rw [hval]
    unfold clampConcurrency
    rw [if_neg (by intro h0; rw [h0] at h1; norm_num at h1)]
    have hf1 : (1 : ℤ) ≤ ⌊next.concurrency⌋ := by
      rw [Int.le_floor]
      exact_mod_cast h1
    have hf2 : ⌊next.concurrency⌋ ≤ 32 := by
      have := Int.floor_le_floor (α := ℚ) h2
      simpa using this
    omega
  · intro h
    rw [hval]
    unfold clampConcurrency
    rw [if_neg (by intro h0; rw [h0] at h; norm_num at h)]
    have hf : (32 : ℤ) ≤ ⌊next.concurrency⌋ := by
      rw [Int.le_floor]
      push_cast
      linarith
    omega
  · intro h hne
    rw [hval]
    unfold clampConcurrency
    rw [if_neg hne]
    have hf : ⌊next.concurrency⌋ < 1 := by
      rw [Int.floor_lt]
      push_cast
      linarith
    omega

/-- A settings request asking for concurrency 50 with streaming on. -/
def hungrySettings : SettingsInput :=
  { baseUrl := "http://127.0.0.1:11434", model := "qwen2.5vl:7b",
    think := false, stream := true, resizeEnabled := true, maxEdge := 768,
    jpegQuality := 60, valueEnabled := false, concurrency := 50,
    engine := Engine.clip, clipModelDir := "",
    clipModelFile := "onnx/model_q4f16.onnx", clipFallbackToOllama := false,
    clipEpAuto := true, clipEpCoreml := true, clipEpCuda := false,
    clipEpRocm := false, clipEpDirectml := false, clipEpOpenvino := false }

/-- Witness for C7: a request of 50 is persisted in range, as exactly 32. -/
theorem saveSettings_concurrency_clamped_witness :
    1 ≤ (saveSettings hungrySettings).analysisConcurrency ∧
    (saveSettings hungrySettings).analysisConcurrency ≤ 32 ∧
    (saveSettings hungrySettings).analysisConcurrency = 32 :=
  ⟨(saveSettings_concurrency_clamped hungrySettings).1,
   (saveSettings_concurrency_clamped hungrySettings).2.1,
   (saveSettings_concurrency_clamped hungrySettings).2.2.2.2.1
     (show (32 : ℚ) < 50 by norm_num)⟩

/-- C8: whenever the persisted (clamped) concurrency exceeds 1, the
persisted stream flag is false, whatever was requested. -/
theorem saveSettings_stream_disabled (next : SettingsInput)
    (h : 1 < (saveSettings next).analysisConcurrency) :
    (saveSettings next).ollamaStream = false := by
  have h2 : 1 < clampConcurrency next.concurrency := h
  show (if 1 < clampConcurrency next.concurrency then false else next.stream) =
    false
  rw [if_pos h2]

/-- Witness for C8: a stored concurrency above 1 comes with the stream flag
stored as false even though `stream := true` was requested. -/
theorem saveSettings_stream_disabled_witness :
    hungrySettings.stream = true ∧
    1 < (saveSettings hungrySettings).analysisConcurrency ∧
    (saveSettings hungrySettings).ollamaStream = false := by
  have h1 : 1 < (saveSettings hungrySettings).analysisConcurrency := by
    have := (saveSettings_concurrency_clamped hungrySettings).2.2.2.2.1
      (show (32 : ℚ) < 50 by norm_num)
    omega
  exact ⟨rfl, h1, saveSettings_stream_disabled hungrySettings h1⟩

theorem sum_count_CATEGORY_KEYS (rows : List CategoryKey) :
    (CATEGORY_KEYS.map (fun c => rows.count c)).sum = rows.length := by
  induction rows with
  | nil => rfl
  | cons r rows ih =>
      simp only [CATEGORY_KEYS, List.map_cons, List.map_nil, List.sum_cons,
        List.sum_nil, List.count_cons, List.length_cons] at ih ⊢
      cases r <;> simp <;> omega

/-- `getDistribution("count_ratio")` in mock mode (`index.ts` lines
333-352), restricted to the `byCategory` map: all zeros when there are no
result rows, otherwise each category's row count divided by the number of
rows (`|| 1` on the total is moot for a nonempty list), rounded to 4
decimal places.  `rows` is the list of the result rows' derived
categories. -/
def countRatioDistribution (rows : List CategoryKey) : ScoreVector :=
  fun c =>
    if rows.length = 0 then 0
    else round4 ((rows.count c : ℚ) / (rows.length : ℚ))

/-- C10: with no result rows every count-ratio value is 0 and the 8 values
sum to 0, not 1; with at least one row each value is the rounded count
ratio and the 8 values sum to 1 within the rounding slack 4e-4. -/
theorem countRatioDistribution_sum (rows : List CategoryKey) :
    (rows = [] → (∀ c, countRatioDistribution rows c = 0) ∧
      scoreSum (countRatioDistribution rows) = 0) ∧
    (rows ≠ [] →
      |scoreSum (countRatioDistribution rows) - 1| ≤ 4 / 10000) := by
  constructor
  · rintro rfl
    refine ⟨fun c => rfl, ?_⟩
    show ((CATEGORY_KEYS.map (countRatioDistribution [])).sum : ℚ) = 0
    simp [countRatioDistribution, CATEGORY_KEYS]
  · intro hne
    have hlen : rows.length ≠ 0 := by
      intro h
      exact hne (List.length_eq_zero.mp h)
    have hlenpos : 0 < (rows.length : ℚ) := by
      have h := Nat.pos_of_ne_zero hlen
      exact_mod_cast h
    have hval : ∀ c, countRatioDistribution rows c =
        round4 ((rows.count c : ℚ) / (rows.length : ℚ)) := by
      intro c
      unfold countRatioDistribution
      rw [if_neg hlen]
    have hmap : CATEGORY_KEYS.map (countRatioDistribution rows) =
        (CATEGORY_KEYS.map
          (fun c => (rows.count c : ℚ) / (rows.length : ℚ))).map round4 := by
      rw [List.map_map]
      apply List.map_congr_left
      intro c _
      exact hval c
    have hcast : (CATEGORY_KEYS.map (fun c => (rows.count c : ℚ))).sum =
        (rows.length : ℚ) := by
      have h := sum_count_CATEGORY_KEYS rows
      simp only [CATEGORY_KEYS, List.map_cons, List.map_nil, List.sum_cons,
        List.sum_nil] at h ⊢
      exact_mod_cast h
    have hinner : (CATEGORY_KEYS.map
        (fun c => (rows.count c : ℚ) / (rows.length : ℚ))).sum = 1 := by
      have hdiv : (CATEGORY_KEYS.map
          (fun c => (rows.count c : ℚ) / (rows.length : ℚ))).sum =
          (CATEGORY_KEYS.map (fun c => (rows.count c : ℚ))).sum /
            (rows.length : ℚ) := by
        simp only [CATEGORY_KEYS, List.map_cons, List.map_nil, List.sum_cons,
          List.sum_nil]
        ring
      rw [hdiv, hcast]
      exact div_self (ne_of_gt hlenpos)
    have herr := sum_round4_err (CATEGORY_KEYS.map
      (fun c => (rows.count c : ℚ) / (rows.length : ℚ)))
    rw [hinner] at herr
    have hlen8 : (CATEGORY_KEYS.map
        (fun c => (rows.count c : ℚ) / (rows.length : ℚ))).length = 8 := by
      simp [CATEGORY_KEYS]
    rw [hlen8] at herr
    unfold scoreSum
    rw [hmap]
    exact le_trans herr (by norm_num)

/-- Witness for C10: the empty table gives all zeros; a one-row table sums
to 1 within the slack. -/
theorem countRatioDistribution_sum_witness :
    (∀ c, countRatioDistribution [] c = 0) ∧
    |scoreSum (countRatioDistribution [CategoryKey.people]) - 1| ≤ 4 / 10000 :=
  ⟨((countRatioDistribution_sum []).1 rfl).1,
   (countRatioDistribution_sum [CategoryKey.people]).2 (by simp)⟩

/-- Modelled from the spec: the per-item failure taxonomy of the backend
pipeline (spec section 7), which lives in the Tauri backend and is absent
from the frontend sources; each kind renders to a non-empty message. -/
inductive FailKind where
  | invalidImage
  | ioError
  | remoteEngineError
deriving DecidableEq, Repr

/-- Modelled from the spec: the message recorded for a failed item. -/
def failMessage : FailKind → String
  | FailKind.invalidImage => "invalid image: decode or preprocess failed"
  | FailKind.ioError => "io error: read or copy failed"
  | FailKind.remoteEngineError => "remote engine error"

/-- Export outcome of a `PhotoResult` (`types.ts` line 79). -/
inductive ExportStatus where
  | pending
  | success
  | error
deriving DecidableEq, Repr

/-- The outcome fields of a `PhotoResult` relevant to error handling. -/
structure PhotoResult where
  exportStatus : ExportStatus
  errorMessage : Option String
deriving DecidableEq, Repr

/-- The job counters a worker updates per item. -/
structure Counters where
  processed : Nat
  errors : Nat
deriving DecidableEq, Repr

/-- Modelled from the spec: one worker's handling of one item (spec section
4.5 steps 2 and 5), absent from the frontend sources.  A failing item
(`some kind`) yields a PhotoResult with export status "error" and the
rendered message, bumps the error counter and still bumps the processed
counter; a succeeding item records success and bumps only processed. -/
def processItem (c : Counters) (item : Option FailKind) :
    Counters × PhotoResult :=
  match item with
  | none =>
      ({ processed := c.processed + 1, errors := c.errors },
       { exportStatus := ExportStatus.success, errorMessage := none })
  | some kind =>
      ({ processed := c.processed + 1, errors := c.errors + 1 },
       { exportStatus := ExportStatus.error,
         errorMessage := some (failMessage kind) })

/-- Modelled from the spec: the pipeline's accounting over a batch,
sequentialized (the claim is about the final counters and the recorded
results, not the interleaving). -/
def runBatch (c : Counters) : List (Option FailKind) →
    Counters × List PhotoResult
  | [] => (c, [])
  | item :: rest =>
      let step := processItem c item
      let tail := runBatch step.1 rest
      (tail.1, step.2 :: tail.2)

theorem failMessage_ne_empty (kind : FailKind) : failMessage kind ≠ "" := by
  cases kind <;> decide

/-- C5: over any batch, processed counts every item, errors counts exactly
the failing items, and every failing item's PhotoResult carries export
status "error" and a non-empty message. -/
theorem runBatch_error_accounting (items : List (Option FailKind)) (c : Counters) :
    (runBatch c items).1.processed = c.processed + items.length ∧
    (runBatch c items).1.errors = c.errors +
      (items.filter (fun it => it.isSome)).length ∧
    (runBatch c items).2.length = items.length ∧
    (∀ p ∈ items.zip (runBatch c items).2, p.1.isSome = true →
      p.2.exportStatus = ExportStatus.error ∧
      ∀ m, p.2.errorMessage = some m → m ≠ "") := by
  induction items generalizing c with
  | nil =>
      refine ⟨rfl, ?_, rfl, ?_⟩
      · show (runBatch c []).1.errors = c.errors + List.length (List.filter _ [])
        simp [runBatch]
      · intro p hp
        cases hp
  | cons item rest ih =>
      obtain ⟨ih1, ih2, ih3, ih4⟩ := ih (processItem c item).1
      have hrun : runBatch c (item :: rest) =
          ((runBatch (processItem c item).1 rest).1,
           (processItem c item).2 :: (runBatch (processItem c item).1 rest).2) := rfl
      rw [hrun]
      cases item with
      | none =>
          refine ⟨?_, ?_, ?_, ?_⟩
          · show (runBatch (processItem c none).1 rest).1.processed =
              c.processed + (rest.length + 1)
            rw [ih1]
            show c.processed + 1 + rest.length = c.processed + (rest.length + 1)
            omega
          · show (runBatch (processItem c none).1 rest).1.errors =
              c.errors + ((rest.filter (fun it => it.isSome)).length)
            rw [ih2]
            rfl
          · show (runBatch (processItem c none).1 rest).2.length + 1 =
              rest.length + 1
            rw [ih3]
          · intro p hp hsome
            rw [List.zip_cons_cons] at hp
            rcases List.mem_cons.mp hp with rfl | hp
            · exact Bool.noConfusion hsome
            · exact ih4 p hp hsome
      | some kind =>
          refine ⟨?_, ?_, ?_, ?_⟩
          · show (runBatch (processItem c (some kind)).1 rest).1.processed =
              c.processed + (rest.length + 1)
            rw [ih1]
            show c.processed + 1 + rest.length = c.processed + (rest.length + 1)
            omega
          · show (runBatch (processItem c (some kind)).1 rest).1.errors =
              c.errors + ((rest.filter (fun it => it.isSome)).length + 1)
            rw [ih2]
            show c.errors + 1 + (rest.filter (fun it => it.isSome)).length =
              c.errors + ((rest.filter (fun it => it.isSome)).length + 1)
            omega
          · show (runBatch (processItem c (some kind)).1 rest).2.length + 1 =
              rest.length + 1
            rw [ih3]
          · intro p hp hsome
            rw [List.zip_cons_cons] at hp
            rcases List.mem_cons.mp hp with rfl | hp
            · refine ⟨rfl, ?_⟩
              intro m hm
              have hm2 : m = failMessage kind := by
                injection hm with h2
                exact h2.symm
              rw [hm2]
              exact failMessage_ne_empty kind
            · exact ih4 p hp hsome

/-- The spec's end-to-end scenario: a batch of 5 items, the third corrupt. -/
def fiveItems : List (Option FailKind) :=
  [none, none, some FailKind.invalidImage, none, none]

/-- Witness for C5: the 5-item batch with exactly one corrupt file ends
with processed 5 and errors 1, and the corrupt item's PhotoResult records
export status "error" with a non-empty message. -/
theorem runBatch_error_accounting_witness :
    (runBatch ⟨0, 0⟩ fiveItems).1.processed = 5 ∧
    (runBatch ⟨0, 0⟩ fiveItems).1.errors = 1 ∧
    ((fiveItems.zip (runBatch ⟨0, 0⟩ fiveItems).2).getD 2
        (none, PhotoResult.mk ExportStatus.pending none)).2.exportStatus =
      ExportStatus.error ∧
    failMessage FailKind.invalidImage ≠ "" := by
  have h := runBatch_error_accounting fiveItems ⟨0, 0⟩
  have hmem : ((some FailKind.invalidImage : Option FailKind),
      PhotoResult.mk ExportStatus.error
        (some (failMessage FailKind.invalidImage))) ∈
      fiveItems.zip (runBatch ⟨0, 0⟩ fiveItems).2 := by decide
  have h3 := h.2.2.2 _ hmem rfl
  refine ⟨?_, ?_, by decide, h3.2 (failMessage FailKind.invalidImage) rfl⟩
  · rw [h.1]
    rfl
  · rw [h.2.1]
    rfl

/-- Modelled from the spec: the optional value judgment (spec section 4.4
step 4) computed by the backend scorer, absent from the frontend sources
(the frontend only carries its `isValuable`/`valuableScore` fields in
`PhotoRow`, `types.ts` lines 71-85).  The keep probability is the 2-way
softmax of the keep/drop cosine similarities of the image embedding. -/
noncomputable def keepProb (keepSim dropSim : ℝ) : ℝ :=
  Real.exp keepSim / (Real.exp keepSim + Real.exp dropSim)

/-- Modelled from the spec: `isValuable = keep_prob >= 0.5`. -/
def isValuable (keepSim dropSim : ℝ) : Prop :=
  1 / 2 ≤ keepProb keepSim dropSim

/-- C9: the keep probability always lies in [0,1], and the recorded
isValuable flag holds exactly when the keep probability is at least 0.5 —
equivalently, exactly when the keep similarity is at least the drop
similarity. -/
theorem keepProb_bounds_isValuable (k d : ℝ) :
    0 ≤ keepProb k d ∧ keepProb k d ≤ 1 ∧
    (isValuable k d ↔ 1 / 2 ≤ keepProb k d) ∧
    (isValuable k d ↔ d ≤ k) := by
  have hk := Real.exp_pos k
  have hd := Real.exp_pos d
  have hsum : 0 < Real.exp k + Real.exp d := by linarith
  refine ⟨?_, ?_, Iff.rfl, ?_⟩
  · exact div_nonneg (le_of_lt hk) (le_of_lt hsum)
  · show Real.exp k / (Real.exp k + Real.exp d) ≤ 1
    rw [div_le_one hsum]
    linarith
  · unfold isValuable keepProb
    rw [le_div_iff₀ hsum]
    constructor
    · intro h
      have h2 : Real.exp d ≤ Real.exp k := by linarith
      exact Real.exp_le_exp.mp h2
    · intro h
      have h2 : Real.exp d ≤ Real.exp k := Real.exp_le_exp.mpr h
      linarith

end ImgSort
